import Mathlib

/-!
Verification of the inkbunny-downloader core: the single-flight memoizing
lookup cache (`flight.NewCache` / `Cache.Get`), the bounded worker pool
(`utils.NewWorkerPool` / `Add` / `Close` / `Work`), and the concrete
`process` closure, producer loop, `fileExists` helper and `changeRatings`
validator from the `main` package of the downloader.

The `process` closure, producer loop, `fileExists` and the ratings
validator are embedded directly from the Go source.  The `flight` and
worker-pool package bodies are not part of the provided sources (only
their call sites are), so those two components are modelled from the
contracts given in the specification, as noted on each definition.
-/

namespace Downloader

/-- Result of a fetch: either a value or an error.  Mirrors the Go
convention of returning `(V, error)` where exactly the error branch is
taken when `error != nil`. -/
inductive FetchResult (V : Type) where
  | ok (v : V)
  | err (e : String)
deriving DecidableEq, Repr

/-- Modelled from the spec: the Flight Cache (`flight.NewCache`), whose
implementation is not among the provided sources.  Sequential view of the
cache state: a memo table from keys to resolved results (`pending` states
only matter under concurrency and are modelled separately by
`FlightStep`), plus an instrumentation counter recording how many times
the wrapped `fetch` has been invoked per key. -/
structure CacheState (K V : Type) where
  resolved : K → Option (FetchResult V)
  fetchCount : K → Nat

/-- The empty cache produced by `flight.NewCache`: nothing resolved, the
wrapped fetch never invoked. -/
def CacheState.init (K V : Type) : CacheState K V :=
  { resolved := fun _ => none, fetchCount := fun _ => 0 }

/-- Modelled from the spec: sequential `Cache.Get`.  If the key was
already resolved (success or failure) the stored result is returned
immediately with no re-fetch; otherwise this call runs `fetch` once,
stores the result permanently, and returns it. -/
def CacheState.Get {K V : Type} [DecidableEq K] (fetch : K → FetchResult V)
    (s : CacheState K V) (k : K) : FetchResult V × CacheState K V :=
  match s.resolved k with
  | some r => (r, s)
  | none =>
    let r := fetch k
    (r, { resolved := fun q => if q = k then some r else s.resolved q,
          fetchCount := fun q => if q = k then s.fetchCount q + 1 else s.fetchCount q })

/-- Concrete fetch function used to instantiate cache theorems. -/
def cFetchOk : Nat → FetchResult Nat := fun _ => FetchResult.ok 7

/-- Concrete always-failing fetch function used to instantiate cache
theorems. -/
def cFetchErr : Nat → FetchResult Nat := fun _ => FetchResult.err "boom"

/-- Modelled from the spec: the per-key phase of the Flight Cache under
concurrency (`flight.NewCache`, implementation not among the provided
sources).  A key is either untouched, pending with a list of caller ids
attached to the in-flight fetch, or permanently resolved. -/
inductive KeyPhase (V : Type) where
  | unfetched
  | pending (waiters : List Nat)
  | resolved (r : FetchResult V)
deriving DecidableEq, Repr

/-- Modelled from the spec: the observable state of one key of the Flight
Cache.  `fetchCalls` instruments the wrapped fetch function with a call
counter; `delivered` records, as `(caller id, result)` pairs, every result
handed back to a caller of `Get`. -/
structure FlightState (V : Type) where
  phase : KeyPhase V
  fetchCalls : Nat
  delivered : List (Nat × FetchResult V)
deriving DecidableEq, Repr

/-- Initial state of a key: never requested, fetch never called. -/
def FlightState.init (V : Type) : FlightState V :=
  { phase := KeyPhase.unfetched, fetchCalls := 0, delivered := [] }

/-- Modelled from the spec: interleaving semantics of concurrent `Get`
calls on one key whose fetch resolves to `r0`.  The check-if-pending /
register-as-pending window is atomic (the map of markers is guarded by a
mutex), so the first arriving caller starts the single fetch, later
callers attach to the pending marker, completion broadcasts the result to
every attached waiter, and arrivals after resolution are served from the
memo. -/
inductive FlightStep {V : Type} (r0 : FetchResult V) :
    FlightState V → FlightState V → Prop where
  | arriveFirst (i : Nat) (s : FlightState V) :
      s.phase = KeyPhase.unfetched →
      FlightStep r0 s { phase := KeyPhase.pending [i],
                        fetchCalls := s.fetchCalls + 1,
                        delivered := s.delivered }
  | arriveJoin (i : Nat) (ws : List Nat) (s : FlightState V) :
      s.phase = KeyPhase.pending ws →
      FlightStep r0 s { s with phase := KeyPhase.pending (i :: ws) }
  | arriveResolved (i : Nat) (r : FetchResult V) (s : FlightState V) :
      s.phase = KeyPhase.resolved r →
      FlightStep r0 s { s with delivered := s.delivered ++ [(i, r)] }
  | complete (ws : List Nat) (s : FlightState V) :
      s.phase = KeyPhase.pending ws →
      FlightStep r0 s { phase := KeyPhase.resolved r0,
                        fetchCalls := s.fetchCalls,
                        delivered := s.delivered ++ ws.map (fun i => (i, r0)) }

/-- Reachability under interleaved `Get` activity on one key. -/
def FlightReach {V : Type} (r0 : FetchResult V) :
    FlightState V → FlightState V → Prop :=
  Relation.ReflTransGen (FlightStep r0)

/-- Invariant tying the phase of a key to the instrumented fetch counter
and the delivered results. -/
def FlightInv {V : Type} (r0 : FetchResult V) (s : FlightState V) : Prop :=
  match s.phase with
  | KeyPhase.unfetched => s.fetchCalls = 0 ∧ s.delivered = []
  | KeyPhase.pending _ => s.fetchCalls = 1 ∧ s.delivered = []
  | KeyPhase.resolved r =>
      r = r0 ∧ s.fetchCalls = 1 ∧ ∀ p ∈ s.delivered, p.2 = r0

/-- Concrete fetch result for the single-flight scenario. -/
def c1res : FetchResult Nat := FetchResult.ok 42

/-- State after caller `0` arrives first and triggers the fetch. -/
def c1s1 : FlightState Nat :=
  { phase := KeyPhase.pending [0], fetchCalls := 1, delivered := [] }

/-- State after caller `1` joins the in-flight fetch. -/
def c1s2 : FlightState Nat :=
  { phase := KeyPhase.pending [1, 0], fetchCalls := 1, delivered := [] }

/-- State after the single fetch completes and both waiters are handed
the result. -/
def c1final : FlightState Nat :=
  { phase := KeyPhase.resolved c1res, fetchCalls := 1,
    delivered := [(1, c1res), (0, c1res)] }

/-- Modelled from the spec: the state of a worker pool
(`utils.NewWorkerPool`, implementation not among the provided sources).
`added` records every item ever submitted through `Add`, `queue` holds the
pending items, `inFlight` the items currently held by busy workers (one
each), `done` the items whose processing has finished (in completion
order), and `closed` whether `Close` has been called. -/
structure PoolState (T : Type) where
  added : List T
  queue : List T
  inFlight : List T
  done : List T
  closed : Bool
deriving DecidableEq, Repr

/-- The freshly constructed pool: nothing submitted, all workers idle. -/
def PoolState.init (T : Type) : PoolState T :=
  { added := [], queue := [], inFlight := [], done := [], closed := false }

/-- Modelled from the spec: interleaving semantics of a pool with `W`
workers.  `Add` appends items while the pool is open; `Close` is called
once by the producer; an idle worker (fewer than `W` busy) dequeues the
head of the shared queue; a busy worker finishes its item — whatever the
result of `process` on it — and the item moves to `done`, one output
entry per item. -/
inductive PoolStep {T : Type} (W : Nat) : PoolState T → PoolState T → Prop where
  | add (ts : List T) (s : PoolState T) :
      s.closed = false →
      PoolStep W s { s with added := s.added ++ ts, queue := s.queue ++ ts }
  | close (s : PoolState T) :
      s.closed = false →
      PoolStep W s { s with closed := true }
  | start (t : T) (rest : List T) (s : PoolState T) :
      s.queue = t :: rest → s.inFlight.length < W →
      PoolStep W s { s with queue := rest, inFlight := t :: s.inFlight }
  | finish (t : T) (pre post : List T) (s : PoolState T) :
      s.inFlight = pre ++ t :: post →
      PoolStep W s { s with inFlight := pre ++ post, done := s.done ++ [t] }

/-- Reachability of pool states under interleaved producer/worker
activity. -/
def PoolReach {T : Type} (W : Nat) : PoolState T → PoolState T → Prop :=
  Relation.ReflTransGen (PoolStep W)

/-- The error stream produced by `Work`: one entry per finished item, the
result of `process` on it (`none` on success, `some e` on failure), in
completion order. -/
def PoolState.output {T : Type} (process : T → Option String)
    (s : PoolState T) : List (Option String) :=
  s.done.map process

/-- A drained pool: `Close` has been called and every submitted item has
been fully processed, so the output stream has terminated. -/
def PoolState.drained {T : Type} (s : PoolState T) : Prop :=
  s.closed = true ∧ s.queue = [] ∧ s.inFlight = []

/-- Invariant of the pool: never more than `W` busy workers, and the
submitted items are exactly the pending, in-flight and finished ones
together. -/
def PoolInv {T : Type} (W : Nat) (s : PoolState T) : Prop :=
  s.inFlight.length ≤ W ∧
  ((s.queue : Multiset T) + (s.inFlight : Multiset T) + (s.done : Multiset T)
    = (s.added : Multiset T))

/-- Concrete process function for pool scenarios: item `1` fails, every
other item succeeds. -/
def cProcess : Nat → Option String := fun n => if n = 1 then some "fail" else none

/-- Pool scenario for two items on two workers: state after `Add [1, 2]`. -/
def c2s1 : PoolState Nat :=
  { added := [1, 2], queue := [1, 2], inFlight := [], done := [], closed := false }

/-- After `Close`. -/
def c2s2 : PoolState Nat :=
  { added := [1, 2], queue := [1, 2], inFlight := [], done := [], closed := true }

/-- After a worker picks up item `1`. -/
def c2s3 : PoolState Nat :=
  { added := [1, 2], queue := [2], inFlight := [1], done := [], closed := true }

/-- After the second worker picks up item `2`. -/
def c2s4 : PoolState Nat :=
  { added := [1, 2], queue := [], inFlight := [2, 1], done := [], closed := true }

/-- After item `1` finishes (with a failure from `cProcess`). -/
def c2s5 : PoolState Nat :=
  { added := [1, 2], queue := [], inFlight := [2], done := [1], closed := true }

/-- Fully drained state of the two-item scenario. -/
def c2final : PoolState Nat :=
  { added := [1, 2], queue := [], inFlight := [], done := [1, 2], closed := true }

/-- Pool scenario for the concurrency bound with `W = 1`: state after
`Add [9]`. -/
def c5s1 : PoolState Nat :=
  { added := [9], queue := [9], inFlight := [], done := [], closed := false }

/-- The single worker is busy with item `9`. -/
def c5busy : PoolState Nat :=
  { added := [9], queue := [], inFlight := [9], done := [], closed := false }

/-- Drain-after-close scenario with one worker: state after `Add [3]`. -/
def c6s1 : PoolState Nat :=
  { added := [3], queue := [3], inFlight := [], done := [], closed := false }

/-- After `Close`. -/
def c6s2 : PoolState Nat :=
  { added := [3], queue := [3], inFlight := [], done := [], closed := true }

/-- The worker holds item `3`. -/
def c6s3 : PoolState Nat :=
  { added := [3], queue := [], inFlight := [3], done := [], closed := true }

/-- Fully drained state of the one-item scenario. -/
def c6final : PoolState Nat :=
  { added := [3], queue := [], inFlight := [], done := [3], closed := true }

/-- Outcome of `os.Stat` on a path, as observed by `fileExists`: success
(the file exists), an error satisfying `errors.Is(err, fs.ErrNotExist)`,
or any other error (for example a permission error). -/
inductive StatResult where
  | statOk
  | errNotExist
  | errOther
deriving DecidableEq, Repr

/-- `fileExists` from the downloader source: `_, err := os.Stat(path);
return !errors.Is(err, fs.ErrNotExist)`. -/
def fileExists (stat : String → StatResult) (path : String) : Bool :=
  !(stat path == StatResult.errNotExist)

/-- `strings.HasPrefix`, computed over the character lists of the two
strings. -/
def strStarts (s pre : String) : Bool :=
  pre.toList.isPrefixOf s.toList

/-- `strings.HasSuffix`, computed over the character lists of the two
strings. -/
def strEnds (s suf : String) : Bool :=
  suf.toList.isSuffixOf s.toList

/-- Splitting a character list on a separator character, the list
analogue of `strings.Split`. -/
def splitOnChar (c : Char) : List Char → List (List Char)
  | [] => [[]]
  | x :: xs =>
    let r := splitOnChar c xs
    if x = c then [] :: r
    else
      match r with
      | [] => [[x]]
      | y :: ys => (x :: y) :: ys

/-- `filepath.Join` on two components. -/
def pathJoin (a b : String) : String := a ++ "/" ++ b

/-- `filepath.Base`: the last component of the path. -/
def pathBase (s : String) : String :=
  String.mk ((splitOnChar '/' s.toList).getLastD s.toList)

/-- `filepath.Ext`: the suffix of the last path component beginning at
its final dot, empty when there is none. -/
def pathExt (s : String) : String :=
  match splitOnChar '.' (pathBase s).toList with
  | [] => ""
  | [_] => ""
  | parts => "." ++ String.mk (parts.getLastD [])

/-- `strings.TrimSuffix`. -/
def trimSuffix (s suf : String) : String :=
  if strEnds s suf then
    String.mk (s.toList.take (s.toList.length - suf.toList.length))
  else s

/-- The filesystem and network effects the `process` closure performs,
abstracted as oracles: `stat` backs `fileExists`, `mkdirAll` and `create`
return the error of `os.MkdirAll` / `os.Create` on a path (`none` on
success), `httpGet` the error of `client.Get` on a URL, and `copy` the
error of `io.Copy` into a destination file. -/
structure Env where
  stat : String → StatResult
  mkdirAll : String → Option String
  create : String → Option String
  httpGet : String → Option String
  copy : String → Option String

/-- One file of a submission, with the fields the `process` closure
reads. -/
structure IBFile where
  fileName : String
  fileURLFull : String
  mimeType : String
deriving DecidableEq, Repr

/-- A submission as consumed by the `process` closure: its id, the
username of the artist, the keyword names, and the files. -/
structure SubmissionDetails where
  submissionID : Nat
  username : String
  keywords : List String
  files : List IBFile
deriving DecidableEq, Repr

/-- The file loop of the `process` closure passed to
`utils.NewWorkerPool`, embedded from the source.  `downloaded` is the
value of the shared atomic counter, `fetched` accumulates the URLs
actually retrieved.  Per file: if the quota guard
`int(downloaded.Load()) >= toDownload` holds, `process` returns success
at once; a file whose MIME type does not start with "image" is skipped
with a warning log; a file that already exists on disk is skipped;
otherwise the directory is created, the file created, the URL fetched and
copied, the keyword caption optionally written — any error along the way
is returned — and the counter is incremented. -/
def processFiles (env : Env) (toDownload : Int) (downloadCaption : Bool)
    (keywordsLen : Nat) (username : String) :
    Nat → List String → List IBFile → Except String (Nat × List String)
  | downloaded, fetched, [] => Except.ok (downloaded, fetched)
  | downloaded, fetched, file :: rest =>
    if (downloaded : Int) ≥ toDownload then Except.ok (downloaded, fetched)
    else if !(strStarts file.mimeType "image") then
      processFiles env toDownload downloadCaption keywordsLen username
        downloaded fetched rest
    else
      let folder := pathJoin "inkbunny" username
      let filename := pathJoin folder (pathBase file.fileName)
      if fileExists env.stat filename then
        processFiles env toDownload downloadCaption keywordsLen username
          downloaded fetched rest
      else
        match env.mkdirAll folder with
        | some e => Except.error e
        | none =>
          match env.create filename with
          | some e => Except.error e
          | none =>
            match env.httpGet file.fileURLFull with
            | some e => Except.error e
            | none =>
              match env.copy filename with
              | some e => Except.error e
              | none =>
                if downloadCaption ∧ 0 < keywordsLen then
                  match env.create (trimSuffix filename (pathExt filename) ++ ".txt") with
                  | some e => Except.error e
                  | none =>
                    match env.copy (trimSuffix filename (pathExt filename) ++ ".txt") with
                    | some e => Except.error e
                    | none =>
                      processFiles env toDownload downloadCaption keywordsLen username
                        (downloaded + 1) (fetched ++ [file.fileURLFull]) rest
                else
                  processFiles env toDownload downloadCaption keywordsLen username
                    (downloaded + 1) (fetched ++ [file.fileURLFull]) rest

/-- The `process` closure on one submission, embedded from the source: it
joins the keyword names with ", " into the caption buffer, returns
success immediately when the submission has no files, and otherwise runs
the file loop starting from the current value of the shared `downloaded`
counter with no URLs retrieved yet. -/
def processSubmission (env : Env) (toDownload : Int) (downloadCaption : Bool)
    (downloaded : Nat) (details : SubmissionDetails) :
    Except String (Nat × List String) :=
  let keywords := String.intercalate ", " details.keywords
  if details.files.length = 0 then Except.ok (downloaded, [])
  else
    processFiles env toDownload downloadCaption keywords.length
      details.username downloaded [] details.files

/-- The early-return guard of the producer goroutine, embedded from the
source: `toDownload > 0 && int(downloaded.Load()) >= toDownload`. -/
def producerStops (toDownload : Int) (downloaded : Nat) : Bool :=
  decide (0 < toDownload) && decide ((downloaded : Int) ≥ toDownload)

/-- Environment in which every filesystem and network operation succeeds
and no file exists yet on disk. -/
def envOkAll : Env :=
  { stat := fun _ => StatResult.errNotExist,
    mkdirAll := fun _ => none,
    create := fun _ => none,
    httpGet := fun _ => none,
    copy := fun _ => none }

/-- A file that is not an image (a PDF). -/
def pdfFile : IBFile :=
  { fileName := "doc.pdf",
    fileURLFull := "https://example.net/doc.pdf",
    mimeType := "application/pdf" }

/-- A submission whose single file is not an image (a PDF). -/
def pdfDetails : SubmissionDetails :=
  { submissionID := 1, username := "artist", keywords := ["kw"],
    files := [pdfFile] }

/-- A plain image file used in concrete scenarios. -/
def imageFile : IBFile :=
  { fileName := "pic.png",
    fileURLFull := "https://example.net/pic.png",
    mimeType := "image/png" }

/-- Environment in which `os.Stat` fails with a permission-style error
(an error that is not `fs.ErrNotExist`) on every path. -/
def envStatOther : Env :=
  { stat := fun _ => StatResult.errOther,
    mkdirAll := fun _ => none,
    create := fun _ => none,
    httpGet := fun _ => none,
    copy := fun _ => none }

/-- The rating constants of `changeRatings` (Go iota bit flags). -/
def General : Nat := 1

/-- `Nudity` rating flag. -/
def Nudity : Nat := 2

/-- `MildViolence` rating flag. -/
def MildViolence : Nat := 4

/-- `Sexual` rating flag. -/
def Sexual : Nat := 8

/-- `StrongViolence` rating flag. -/
def StrongViolence : Nat := 16

/-- The error message of the ratings validator. -/
def ratingsAgreementMessage : String :=
  "You cannot proceed unless you tick the appropriate boxes to indicate you agree with the terms and conditions on this page.\nDeselect values to go to previous section."

/-- The `Validate` callback on the ratings multi-select of
`changeRatings`, embedded from the source.  The Go `switch len(s)` has a
`return nil` for the empty selection, a `case 1` that returns nil for
`General` and otherwise falls through to the trailing `return nil`, and a
`default` branch that rejects when fewer than three agreements are
ticked. -/
def validateRatings (chosenAgreements : List String) (s : List Nat) :
    Option String :=
  match s with
  | [] => none
  | [r] => if r = General then none else none
  | _ :: _ :: _ =>
      if chosenAgreements.length < 3 then some ratingsAgreementMessage
      else none

end Downloader

namespace Downloader

/-- Unfolding lemma: `Get` on an already-resolved key returns the stored
result and leaves the state untouched. -/
theorem CacheState.get_of_resolved {K V : Type} [DecidableEq K]
    (fetch : K → FetchResult V) (s : CacheState K V) (k : K) (r : FetchResult V)
    (h : s.resolved k = some r) : CacheState.Get fetch s k = (r, s) := by
  simp [CacheState.Get, h]

/-- C3: after a `Get` for key `k` has resolved successfully with value
`v`, a subsequent sequential `Get` for `k` returns the stored value and
leaves the cache state (including the per-key fetch counter) unchanged:
zero additional invocations of the wrapped fetch function. -/
theorem cache_get_memoizes_success {K V : Type} [DecidableEq K]
    (fetch : K → FetchResult V) (s : CacheState K V) (k : K) (v : V)
    (h : (CacheState.Get fetch s k).1 = FetchResult.ok v) :
    CacheState.Get fetch (CacheState.Get fetch s k).2 k
      = (FetchResult.ok v, (CacheState.Get fetch s k).2) := by
  cases hres : s.resolved k with
  | some r =>
    have h1 : CacheState.Get fetch s k = (r, s) :=
      CacheState.get_of_resolved fetch s k r hres
    have hr : r = FetchResult.ok v := by rw [h1] at h; exact h
    rw [h1]
    exact CacheState.get_of_resolved fetch s k (FetchResult.ok v) (hr ▸ hres)
  | none =>
    have h1 : (CacheState.Get fetch s k).2.resolved k = some (fetch k) := by
      simp [CacheState.Get, hres]
    have hv : fetch k = FetchResult.ok v := by
      have := h
      simp [CacheState.Get, hres] at this
      exact this
    rw [CacheState.get_of_resolved fetch _ k (fetch k) h1, hv]

/-- Witness for C3 at a concrete instance: a fresh cache, `fetch`
constantly returning `ok 7`, key `0`. -/
theorem cache_get_memoizes_success_witness :
    (CacheState.Get cFetchOk (CacheState.init Nat Nat) 0).1 = FetchResult.ok 7 ∧
    CacheState.Get cFetchOk (CacheState.Get cFetchOk (CacheState.init Nat Nat) 0).2 0
      = (FetchResult.ok 7, (CacheState.Get cFetchOk (CacheState.init Nat Nat) 0).2) :=
  ⟨rfl, cache_get_memoizes_success cFetchOk (CacheState.init Nat Nat) 0 7 rfl⟩

/-- C4: if the fetch for key `k` resolved with an error, every subsequent
`Get` for `k` returns that same memoized error and leaves the cache state
(including the per-key fetch counter) unchanged: the wrapped fetch is not
re-invoked. -/
theorem cache_get_memoizes_error {K V : Type} [DecidableEq K]
    (fetch : K → FetchResult V) (s : CacheState K V) (k : K) (e : String)
    (h : (CacheState.Get fetch s k).1 = FetchResult.err e) :
    CacheState.Get fetch (CacheState.Get fetch s k).2 k
      = (FetchResult.err e, (CacheState.Get fetch s k).2) := by
  cases hres : s.resolved k with
  | some r =>
    have h1 : CacheState.Get fetch s k = (r, s) :=
      CacheState.get_of_resolved fetch s k r hres
    have hr : r = FetchResult.err e := by rw [h1] at h; exact h
    rw [h1]
    exact CacheState.get_of_resolved fetch s k (FetchResult.err e) (hr ▸ hres)
  | none =>
    have h1 : (CacheState.Get fetch s k).2.resolved k = some (fetch k) := by
      simp [CacheState.Get, hres]
    have hv : fetch k = FetchResult.err e := by
      have := h
      simp [CacheState.Get, hres] at this
      exact this
    rw [CacheState.get_of_resolved fetch _ k (fetch k) h1, hv]

/-- Witness for C4 at a concrete instance: a fresh cache, `fetch`
constantly failing with "boom", key `5`. -/
theorem cache_get_memoizes_error_witness :
    (CacheState.Get cFetchErr (CacheState.init Nat Nat) 5).1 = FetchResult.err "boom" ∧
    CacheState.Get cFetchErr (CacheState.Get cFetchErr (CacheState.init Nat Nat) 5).2 5
      = (FetchResult.err "boom", (CacheState.Get cFetchErr (CacheState.init Nat Nat) 5).2) :=
  ⟨rfl, cache_get_memoizes_error cFetchErr (CacheState.init Nat Nat) 5 "boom" rfl⟩

/-- The flight invariant holds in the initial state. -/
theorem flightInv_init {V : Type} (r0 : FetchResult V) :
    FlightInv r0 (FlightState.init V) := by
  simp [FlightInv, FlightState.init]

/-- The flight invariant is preserved by every interleaving step. -/
theorem flightInv_step {V : Type} {r0 : FetchResult V} {s t : FlightState V}
    (hinv : FlightInv r0 s) (hstep : FlightStep r0 s t) : FlightInv r0 t := by
  cases hstep with
  | arriveFirst i s hp =>
    rw [FlightInv, hp] at hinv
    simp [FlightInv, hinv.1, hinv.2]
  | arriveJoin i ws s hp =>
    rw [FlightInv, hp] at hinv
    simp [FlightInv, hinv.1, hinv.2]
  | arriveResolved i r s hp =>
    rw [FlightInv, hp] at hinv
    obtain ⟨hr, hc, hdel⟩ := hinv
    rw [FlightInv]
    simp only [hp]
    refine ⟨hr, hc, ?_⟩
    intro p hp2
    rcases List.mem_append.mp hp2 with h | h
    · exact hdel p h
    · rcases List.mem_singleton.mp h with rfl
      exact hr
  | complete ws s hp =>
    rw [FlightInv, hp] at hinv
    rw [FlightInv]
    refine ⟨rfl, hinv.1, ?_⟩
    intro p hp2
    rw [hinv.2] at hp2
    simp only [List.nil_append, List.mem_map] at hp2
    obtain ⟨i, _, rfl⟩ := hp2
    rfl

/-- The flight invariant holds in every reachable state. -/
theorem flightInv_reach {V : Type} {r0 : FetchResult V} {s : FlightState V}
    (h : FlightReach r0 (FlightState.init V) s) : FlightInv r0 s := by
  induction h with
  | refl => exact flightInv_init r0
  | tail _ hstep ih => exact flightInv_step ih hstep

/-- C1: under any interleaving of concurrently arriving `Get` callers for
one unresolved key, the wrapped fetch function is invoked at most once
overall, and as soon as any caller has received a result, the fetch has
been invoked exactly once and every result ever delivered — to the
triggering caller and to every other caller — is the identical result
`r0` of that single fetch. -/
theorem flight_single_fetch_identical_result {V : Type} (r0 : FetchResult V)
    (s : FlightState V) (h : FlightReach r0 (FlightState.init V) s) :
    s.fetchCalls ≤ 1 ∧
    ∀ i r, (i, r) ∈ s.delivered → r = r0 ∧ s.fetchCalls = 1 := by
  have hinv := flightInv_reach h
  rw [FlightInv] at hinv
  cases hp : s.phase with
  | unfetched =>
    rw [hp] at hinv
    refine ⟨by omega, ?_⟩
    intro i r hmem
    rw [hinv.2] at hmem
    simp at hmem
  | pending ws =>
    rw [hp] at hinv
    refine ⟨by omega, ?_⟩
    intro i r hmem
    rw [hinv.2] at hmem
    simp at hmem
  | resolved r =>
    rw [hp] at hinv
    refine ⟨by omega, ?_⟩
    intro i r2 hmem
    exact ⟨hinv.2.2 (i, r2) hmem, hinv.2.1⟩

/-- Witness for C1: two concurrent callers `0` and `1`; caller `0`
arrives first and triggers the fetch, caller `1` joins the same in-flight
fetch, the fetch completes once, and both receive the identical result. -/
theorem flight_single_fetch_identical_result_witness :
    c1final.fetchCalls ≤ 1 ∧
    (c1res = c1res ∧ c1final.fetchCalls = 1) ∧
    (c1res = c1res ∧ c1final.fetchCalls = 1) := by
  have h := flight_single_fetch_identical_result c1res c1final
    (Relation.ReflTransGen.tail
      (Relation.ReflTransGen.tail
        (Relation.ReflTransGen.single
          (FlightStep.arriveFirst 0 (FlightState.init Nat) rfl))
        (FlightStep.arriveJoin 1 [0] c1s1 rfl))
      (FlightStep.complete [1, 0] c1s2 rfl))
  exact ⟨h.1, h.2 0 c1res (by decide), h.2 1 c1res (by decide)⟩

/-- The pool invariant holds for a freshly constructed pool. -/
theorem poolInv_init {T : Type} (W : Nat) : PoolInv W (PoolState.init T) := by
  simp [PoolInv, PoolState.init]

/-- The pool invariant is preserved by every pool step. -/
theorem poolInv_step {T : Type} {W : Nat} {s t : PoolState T}
    (hinv : PoolInv W s) (hstep : PoolStep W s t) : PoolInv W t := by
  obtain ⟨hlen, hsum⟩ := hinv
  cases hstep with
  | add ts s1 hc =>
    refine ⟨hlen, ?_⟩
    show ((s.queue ++ ts : List T) : Multiset T) + (s.inFlight : Multiset T)
        + (s.done : Multiset T) = ((s.added ++ ts : List T) : Multiset T)
    rw [← Multiset.coe_add, ← Multiset.coe_add, ← hsum]
    abel
  | close s1 hc => exact ⟨hlen, hsum⟩
  | start t rest s1 hq hw =>
    refine ⟨?_, ?_⟩
    · show (t :: s.inFlight).length ≤ W
      simp only [List.length_cons]
      omega
    · show (rest : Multiset T) + ((t :: s.inFlight : List T) : Multiset T)
          + (s.done : Multiset T) = (s.added : Multiset T)
      rw [← hsum, hq, ← Multiset.cons_coe, ← Multiset.cons_coe,
        ← Multiset.singleton_add, ← Multiset.singleton_add]
      abel
  | finish t pre post s1 hf =>
    refine ⟨?_, ?_⟩
    · show (pre ++ post).length ≤ W
      rw [hf] at hlen
      simp only [List.length_append, List.length_cons] at hlen ⊢
      omega
    · show (s.queue : Multiset T) + ((pre ++ post : List T) : Multiset T)
          + ((s.done ++ [t] : List T) : Multiset T) = (s.added : Multiset T)
      rw [← hsum, hf]
      simp only [← Multiset.coe_add, ← Multiset.cons_coe, ← Multiset.singleton_add,
        Multiset.coe_nil]
      abel

/-- The pool invariant holds in every reachable pool state. -/
theorem poolInv_reach {T : Type} {W : Nat} {s : PoolState T}
    (h : PoolReach W (PoolState.init T) s) : PoolInv W s := by
  induction h with
  | refl => exact poolInv_init W
  | tail _ hstep ih => exact poolInv_step ih hstep

/-- C2: once a pool is drained after `Close`, the output stream of
`Work` holds exactly one entry per submitted item — the result of
`process` on that item — for any worker count and any mix of failing and
succeeding items; moreover (progress) from any closed pool state with at
least one worker and work remaining, a step is always possible, whatever
results `process` produced so far: one failed item never halts the
pool. -/
theorem pool_exactly_one_result_per_item {T : Type} (W : Nat)
    (process : T → Option String) (s : PoolState T)
    (hr : PoolReach W (PoolState.init T) s) (hd : PoolState.drained s) :
    (PoolState.output process s).Perm (s.added.map process) ∧
    (PoolState.output process s).length = s.added.length ∧
    ∀ u : PoolState T, 1 ≤ W → u.closed = true →
      (u.queue ≠ [] ∨ u.inFlight ≠ []) → ∃ v, PoolStep W u v := by
  obtain ⟨hc, hq, hf⟩ := hd
  have hperm : s.done.Perm s.added := by
    have h2 := (poolInv_reach hr).2
    rw [hq, hf] at h2
    simp only [Multiset.coe_nil, zero_add, add_zero] at h2
    exact Multiset.coe_eq_coe.mp h2
  refine ⟨hperm.map process, ?_, ?_⟩
  · show (s.done.map process).length = s.added.length
    rw [List.length_map]
    exact hperm.length_eq
  · intro u hW hclosed hne
    rcases hu : u.inFlight with _ | ⟨x, xs⟩
    · rcases hq2 : u.queue with _ | ⟨y, ys⟩
      · rcases hne with h | h
        · exact absurd hq2 h
        · exact absurd hu h
      · refine ⟨_, PoolStep.start y ys u hq2 ?_⟩
        rw [hu]
        simpa using hW
    · exact ⟨_, PoolStep.finish x [] xs u (by rw [hu]; rfl)⟩

/-- Witness for C2: two items on two workers, item `1` failing under
`cProcess` and item `2` succeeding; the drained pool emitted exactly two
entries, one per item, and the closed busy state `c2s3` can still step. -/
theorem pool_exactly_one_result_per_item_witness :
    (PoolState.output cProcess c2final).Perm (c2final.added.map cProcess) ∧
    (PoolState.output cProcess c2final).length = c2final.added.length ∧
    ∃ v, PoolStep 2 c2s3 v := by
  have h := pool_exactly_one_result_per_item 2 cProcess c2final
    (Relation.ReflTransGen.tail
      (Relation.ReflTransGen.tail
        (Relation.ReflTransGen.tail
          (Relation.ReflTransGen.tail
            (Relation.ReflTransGen.tail
              (Relation.ReflTransGen.single
                (PoolStep.add [1, 2] (PoolState.init Nat) rfl))
              (PoolStep.close c2s1 rfl))
            (PoolStep.start 1 [2] c2s2 rfl (by decide)))
          (PoolStep.start 2 [] c2s3 rfl (by decide)))
        (PoolStep.finish 1 [2] [] c2s4 rfl))
      (PoolStep.finish 2 [] [] c2s5 rfl))
    ⟨rfl, rfl, rfl⟩
  exact ⟨h.1, h.2.1, h.2.2 c2s3 (by decide) rfl (Or.inl (by decide))⟩

/-- C5: in every reachable state of a pool with `W` workers, at most `W`
invocations of the process function are active concurrently. -/
theorem pool_bounded_concurrency {T : Type} (W : Nat) (s : PoolState T)
    (h : PoolReach W (PoolState.init T) s) : s.inFlight.length ≤ W :=
  (poolInv_reach h).1

/-- Witness for C5: a single-worker pool that has picked up its one item
has exactly one active invocation, within the bound `W = 1`. -/
theorem pool_bounded_concurrency_witness : c5busy.inFlight.length ≤ 1 :=
  pool_bounded_concurrency 1 c5busy
    (Relation.ReflTransGen.tail
      (Relation.ReflTransGen.single (PoolStep.add [9] (PoolState.init Nat) rfl))
      (PoolStep.start 9 [] c5s1 rfl (by decide)))

/-- C6: a pool that was closed after `M` submitted items and then fully
drained has emitted exactly `M` output entries, and no further step is
possible: the sequence from `Work` has terminated and cannot block or
yield again. -/
theorem pool_drain_terminates {T : Type} (W : Nat)
    (process : T → Option String) (s : PoolState T)
    (hr : PoolReach W (PoolState.init T) s) (hd : PoolState.drained s) :
    (PoolState.output process s).length = s.added.length ∧
    ¬∃ u, PoolStep W s u := by
  obtain ⟨hc, hq, hf⟩ := hd
  have hperm : s.done.Perm s.added := by
    have h2 := (poolInv_reach hr).2
    rw [hq, hf] at h2
    simp only [Multiset.coe_nil, zero_add, add_zero] at h2
    exact Multiset.coe_eq_coe.mp h2
  refine ⟨?_, ?_⟩
  · show (s.done.map process).length = s.added.length
    rw [List.length_map]
    exact hperm.length_eq
  · rintro ⟨u, hu⟩
    cases hu with
    | add ts s1 hcl => simp [hc] at hcl
    | close s1 hcl => simp [hc] at hcl
    | start t rest s1 hq2 hw => rw [hq] at hq2; exact List.noConfusion hq2
    | finish t pre post s1 hf2 => rw [hf] at hf2; simp at hf2

/-- Witness for C6: one item, one worker; after `Add [3]`, `Close` and a
full drain, the output has exactly one entry and the drained state has no
successor. -/
theorem pool_drain_terminates_witness :
    (PoolState.output cProcess c6final).length = c6final.added.length ∧
    ¬∃ u, PoolStep 1 c6final u :=
  pool_drain_terminates 1 cProcess c6final
    (Relation.ReflTransGen.tail
      (Relation.ReflTransGen.tail
        (Relation.ReflTransGen.tail
          (Relation.ReflTransGen.single (PoolStep.add [3] (PoolState.init Nat) rfl))
          (PoolStep.close c6s1 rfl))
        (PoolStep.start 3 [] c6s2 rfl (by decide)))
      (PoolStep.finish 3 [] [] c6s3 rfl))
    ⟨rfl, rfl, rfl⟩

/-- C7-counterexample: in an environment where every filesystem and
network operation would succeed, processing a submission whose single
file has the unsupported content type "application/pdf" reports no error
through the output stream of the pool: `process` skips the file (with only a
warning log) and returns success, retrieving nothing. -/
theorem process_unsupported_mime_swallowed_counterexample :
    (pdfDetails.files.all fun f => !(strStarts f.mimeType "image")) = true ∧
    processSubmission envOkAll 5 true 0 pdfDetails = Except.ok (0, []) := by
  constructor
  · decide
  · rfl

/-- C7 (amended): a file with an unsupported content type (MIME type not
an image) is not reported through the output stream of the Worker Pool:
`process` skips it with a warning log and continues with the remaining
files as if the file were not there, contributing no error and no
download. -/
theorem process_skips_unsupported_mime (env : Env) (toDownload : Int)
    (dc : Bool) (kl : Nat) (username : String) (downloaded : Nat)
    (fetched : List String) (file : IBFile) (rest : List IBFile)
    (hmime : strStarts file.mimeType "image" = false)
    (hquota : (downloaded : Int) < toDownload) :
    processFiles env toDownload dc kl username downloaded fetched (file :: rest)
      = processFiles env toDownload dc kl username downloaded fetched rest := by
  simp only [processFiles]
  rw [if_neg (by omega), hmime]
  simp

/-- Witness for the amended C7 at a concrete input: the PDF file is
skipped and processing continues with the (empty) remaining files. -/
theorem process_skips_unsupported_mime_witness :
    strStarts pdfFile.mimeType "image" = false ∧
    ((0 : Nat) : Int) < 5 ∧
    processFiles envOkAll 5 true 2 "artist" 0 [] [pdfFile]
      = processFiles envOkAll 5 true 2 "artist" 0 [] [] :=
  ⟨by decide, by decide,
    process_skips_unsupported_mime envOkAll 5 true 2 "artist" 0 [] pdfFile []
      (by decide) (by decide)⟩

/-- C8: when the download quota `toDownload` is `0` (the value left by an
empty max-downloads field, whose placeholder reads "Unlimited"), the
`process` closure downloads nothing at all: for every submission the
guard `int(downloaded.Load()) >= toDownload` holds immediately and
`process` returns success with the counter unchanged and no URL
retrieved, while the stop guard `toDownload > 0 && ...` of the producer loop
treats the same quota value `0` as no limit and never fires. -/
theorem quota_zero_downloads_nothing (env : Env) (dc : Bool)
    (downloaded : Nat) (details : SubmissionDetails) (n : Nat) :
    processSubmission env 0 dc downloaded details = Except.ok (downloaded, []) ∧
    producerStops 0 n = false := by
  constructor
  · have h0 : (downloaded : Int) ≥ 0 := by omega
    cases hf : details.files with
    | nil => simp [processSubmission, hf]
    | cons f fs => simp [processSubmission, hf, processFiles, h0]
  · simp [producerStops]

/-- C9: `fileExists` returns `true` whenever `os.Stat` fails with any
error other than `fs.ErrNotExist` (for example a permission error), not
only when the file exists; consequently the `process` closure skips
downloading such a file exactly as if it were already present, moving on
to the remaining files with no retrieval and no error. -/
theorem fileExists_true_on_other_stat_error (stat : String → StatResult)
    (path : String) (env : Env) (toDownload : Int) (dc : Bool) (kl : Nat)
    (username : String) (downloaded : Nat) (fetched : List String)
    (file : IBFile) (rest : List IBFile)
    (hstat : stat path = StatResult.errOther)
    (henv : env.stat (pathJoin (pathJoin "inkbunny" username)
      (pathBase file.fileName)) = StatResult.errOther)
    (hmime : strStarts file.mimeType "image" = true)
    (hquota : (downloaded : Int) < toDownload) :
    fileExists stat path = true ∧
    processFiles env toDownload dc kl username downloaded fetched (file :: rest)
      = processFiles env toDownload dc kl username downloaded fetched rest := by
  constructor
  · simp [fileExists, hstat]
  · simp only [processFiles]
    rw [if_neg (by omega), hmime]
    simp [fileExists, henv]

/-- Witness for C9 at a concrete input: with `os.Stat` failing with a
permission-style error everywhere, `fileExists` answers `true` and the
image file is skipped. -/
theorem fileExists_true_on_other_stat_error_witness :
    fileExists envStatOther.stat "somepath" = true ∧
    processFiles envStatOther 5 false 0 "artist" 0 [] [imageFile]
      = processFiles envStatOther 5 false 0 "artist" 0 [] [] :=
  fileExists_true_on_other_stat_error envStatOther.stat "somepath" envStatOther
    5 false 0 "artist" 0 [] imageFile [] rfl rfl (by decide) (by decide)

/-- C10: the ratings validator of `changeRatings` accepts any selection
of exactly one rating — also a non-`General` one with no agreements
ticked — because the `case 1` of the Go switch falls through to the
trailing `return nil`; and whenever the validator rejects, two or more
ratings were selected and fewer than three agreements were ticked: the
agreement check is enforced only for selections of two or more
ratings. -/
theorem ratings_single_selection_ok (agreements agreements2 : List String)
    (r : Nat) (s : List Nat)
    (herr : validateRatings agreements2 s ≠ none) :
    validateRatings agreements [r] = none ∧
    2 ≤ s.length ∧ agreements2.length < 3 := by
  refine ⟨by simp [validateRatings], ?_, ?_⟩
  · cases s with
    | nil => simp [validateRatings] at herr
    | cons x xs =>
      cases xs with
      | nil => simp [validateRatings] at herr
      | cons y ys => simp
  · cases s with
    | nil => simp [validateRatings] at herr
    | cons x xs =>
      cases xs with
      | nil => simp [validateRatings] at herr
      | cons y ys =>
        by_cases hlt : agreements2.length < 3
        · exact hlt
        · simp [validateRatings, hlt] at herr

/-- Witness for C10: the single non-`General` selection `[Nudity]` with
no agreements ticked is accepted, while the rejected two-element
selection `[General, Nudity]` (also with no agreements) shows where the
agreement check fires. -/
theorem ratings_single_selection_ok_witness :
    validateRatings [] [Nudity] = none ∧
    2 ≤ ([General, Nudity] : List Nat).length ∧
    ([] : List String).length < 3 :=
  ratings_single_selection_ok [] [] Nudity [General, Nudity] (by decide)

end Downloader
